import Mathlib

/-!
Verification development for a bytecode interpreter for the Lox language
(scanner, single-pass Pratt compiler, stack VM, string-interning table),
shallowly embedded from the Rust sources (`scanner.rs`, `compiler.rs`,
`chunk.rs`, `value.rs`, `vm.rs`, `lox_string_table.rs`).

Modelling conventions:
* Rust `f64` numbers are modelled as exact fractions (`F64`); every
  arithmetic operation exercised by the theorems below stays on small
  integers, where `f64` arithmetic is exact, so the two agree on
  everything proved here.
* Raw pointers into the interning table are modelled by stable entry
  identifiers: the table owns entries `{id, content, refcount}` and a
  `LoxString` handle carries the id of the entry it points into together
  with the content the `*const str` dereferences to.  Pointer identity of
  handles corresponds to equality of these structures.
* Process aborts (`unwrap`/index panics/`assert!` failures) are modelled
  by explicit `panicked`/`Option.none` outcomes, kept distinct from the
  recoverable `InterpretError` results that the Rust code returns.
* `println!` output is modelled as the list of printed lines (each line
  is implicitly terminated by a newline); `eprintln!` diagnostics are
  modelled as a list of reported error messages.
-/

namespace Lox

/-! ## String interning table (`lox_string_table.rs`) -/

/-- One `InternalStringEntry` of the table: the boxed string data plus the
refcount bookkeeping.  The `id` models the stable address of the
`Box<InternalStringEntry>` (entries are never relocated once created). -/
structure StrEntry where
  id : Nat
  content : String
  refcount : Nat
deriving DecidableEq, Repr

/-- A `LoxString`: a non-owning handle consisting of a pointer to the
interned character data (modelled by the `content` it dereferences to) and
a pointer to the table entry (modelled by the entry `id`). -/
structure LoxString where
  entryId : Nat
  content : String
deriving DecidableEq, Repr

/-- The `LoxStringTable`: a set of boxed entries keyed by content.
`nextId` models the allocator producing fresh stable addresses. -/
structure LoxStringTable where
  entries : List StrEntry
  nextId : Nat
deriving DecidableEq, Repr

def LoxStringTable.new : LoxStringTable := ⟨[], 0⟩

/-- Lookup of the entry holding `s`, as done by `self.table.get(string)`. -/
def findEntry (t : LoxStringTable) (s : String) : Option StrEntry :=
  t.entries.find? (fun e => e.content = s)

/-- Increment the refcount of the entry holding `s` and report its id
(the combined effect of `table.get(string)` plus
`*internal_string.refcount.borrow_mut() += 1`). -/
def bumpRefcount : List StrEntry → String → Option (Nat × List StrEntry)
  | [], _ => none
  | e :: es, s =>
    if e.content = s then some (e.id, { e with refcount := e.refcount + 1 } :: es)
    else (bumpRefcount es s).map (fun p => (p.1, e :: p.2))

/-- `LoxStringTable::allocate_string_from_str`: insert a fresh entry with
refcount 0 when the content is not interned yet, then fetch the (unique)
entry for the content, increment its refcount and hand out a `LoxString`
pointing at it. -/
def allocate_string_from_str (t : LoxStringTable) (s : String) :
    LoxString × LoxStringTable :=
  match bumpRefcount t.entries s with
  | some (i, es) => (⟨i, s⟩, { t with entries := es })
  | none =>
      (⟨t.nextId, s⟩,
        { entries := t.entries ++ [⟨t.nextId, s, 1⟩], nextId := t.nextId + 1 })

/-- `LoxStringTable::allocate_string_from_box`: identical table-level
behaviour to `allocate_string_from_str` (the difference in the source is
only whether the freshly boxed data can be reused for the new entry). -/
def allocate_string_from_box (t : LoxStringTable) (s : String) :
    LoxString × LoxStringTable :=
  allocate_string_from_str t s

/-- `LoxStringTable::concatenate`: build the concatenated string and
intern it via `allocate_string_from_box`. -/
def concatenate (t : LoxStringTable) (left right : LoxString) :
    LoxString × LoxStringTable :=
  allocate_string_from_box t (left.content ++ right.content)

/-- `impl Drop for LoxString`: with a live (non-null) entry pointer,
dropping a handle decrements the refcount of its entry. -/
def dropLoxString (t : LoxStringTable) (h : LoxString) : LoxStringTable :=
  { t with
    entries :=
      t.entries.map (fun e =>
        if e.id = h.entryId then { e with refcount := e.refcount - 1 } else e) }

/-- `LoxStringTable::remove_string`: `none` models a failed `expect` or
`assert!` (a process abort).  The entry for the handle's content must be
present, its refcount must be exactly 1 (the passed handle is the last
owner), and the handle must point at that very entry; the entry is then
removed with its refcount cleared. -/
def remove_string (t : LoxStringTable) (h : LoxString) :
    Option LoxStringTable :=
  match findEntry t h.content with
  | none => none
  | some e =>
      if e.refcount = 1 ∧ e.id = h.entryId then
        some { t with entries := t.entries.filter (fun e2 => e2.content ≠ h.content) }
      else none

/-- `impl Drop for InternalStringEntry` sanity-checks that its refcount is
0; this predicate says the entry can be dropped without violating that
assertion. -/
def entryDroppable (e : StrEntry) : Prop := e.refcount = 0

instance (e : StrEntry) : Decidable (entryDroppable e) := by
  unfold entryDroppable; infer_instance

/-- Interning invariant: entry contents are pairwise distinct, entry ids
are pairwise distinct, and all ids are below `nextId`. -/
def TableWF (t : LoxStringTable) : Prop :=
  t.entries.Pairwise (fun a b => a.content ≠ b.content) ∧
  t.entries.Pairwise (fun a b => a.id ≠ b.id) ∧
  ∀ e ∈ t.entries, e.id < t.nextId

/-- Intern a whole list of contents in order, returning the handles. -/
def allocList (t : LoxStringTable) : List String → List LoxString × LoxStringTable
  | [] => ([], t)
  | s :: ss =>
    let p := allocate_string_from_str t s
    let q := allocList p.2 ss
    (p.1 :: q.1, q.2)

/-- Intern the same content `n` times, returning the last handle
(handles for equal content coincide, which the theorems establish). -/
def allocN (t : LoxStringTable) (s : String) : Nat → LoxString × LoxStringTable
  | 0 => (⟨t.nextId, s⟩, t)
  | 1 => allocate_string_from_str t s
  | n + 1 =>
    let p := allocate_string_from_str t s
    allocN p.2 s n

/-- Apply `dropLoxString` for `k` copies of the same handle. -/
def dropN (t : LoxStringTable) (h : LoxString) : Nat → LoxStringTable
  | 0 => t
  | k + 1 => dropN (dropLoxString t h) h k

/-! ## Scanner (`scanner.rs`) -/

/-- The `TokenType` enumeration. -/
inductive TokenType where
  | TokenLeftParen | TokenRightParen | TokenLeftBrace | TokenRightBrace
  | TokenComma | TokenDot | TokenMinus | TokenPlus
  | TokenSemicolon | TokenSlash | TokenStar
  | TokenBang | TokenBangEqual | TokenEqual | TokenEqualEqual
  | TokenGreater | TokenGreaterEqual | TokenLess | TokenLessEqual
  | TokenIdentifier | TokenString | TokenNumber
  | TokenAnd | TokenClass | TokenElse | TokenFalse | TokenFor | TokenFun
  | TokenIf | TokenNil | TokenOr | TokenPrint | TokenReturn | TokenSuper
  | TokenThis | TokenTrue | TokenVar | TokenWhile
  | TokenError | TokenEof
deriving DecidableEq, Repr

open TokenType

/-- A `Token`: the lexeme slice, its source line and its kind. -/
structure Token where
  string : String
  line : Int
  token_type : TokenType
deriving DecidableEq, Repr

/-- The `Scanner`.  The two `Peekable<CharIndices>` iterators `start` and
`current` are modelled by character indices into `source`. -/
structure Scanner where
  source : List Char
  start : Nat
  current : Nat
  line : Int
deriving DecidableEq, Repr

def Scanner.new (source : String) : Scanner :=
  ⟨source.toList, 0, 0, 1⟩

/-- `is_lox_digit` on `char`. -/
def is_lox_digit (c : Char) : Bool := '0' ≤ c ∧ c ≤ '9'

/-- `is_lox_alpha` on `char`. -/
def is_lox_alpha (c : Char) : Bool :=
  ('a' ≤ c ∧ c ≤ 'z') ∨ ('A' ≤ c ∧ c ≤ 'Z') ∨ c = '_'

/-- `Option<char>` versions of the digit predicate. -/
def opt_is_lox_digit : Option Char → Bool
  | some c => is_lox_digit c
  | none => false

/-- `Option<char>` versions of the alpha predicate. -/
def opt_is_lox_alpha : Option Char → Bool
  | some c => is_lox_alpha c
  | none => false

/-- `Scanner::peek`. -/
def Scanner.peek (s : Scanner) : Option Char := s.source.get? s.current

/-- `Scanner::peek_next`. -/
def Scanner.peek_next (s : Scanner) : Option Char := s.source.get? (s.current + 1)

/-- `Scanner::advance`: `current.next()`, returning the consumed
character; an exhausted iterator yields `none` and leaves the scanner
unchanged. -/
def Scanner.advance (s : Scanner) : Option Char × Scanner :=
  match s.source.get? s.current with
  | some c => (some c, { s with current := s.current + 1 })
  | none => (none, s)

/-- `Scanner::match_character`. -/
def Scanner.match_character (s : Scanner) (c : Char) : Bool × Scanner :=
  match s.peek with
  | some x => if x = c then (true, { s with current := s.current + 1 }) else (false, s)
  | none => (false, s)

/-- The inner loop of the `//` comment arm of `skip_whitespace`: consume
characters up to, not including, the next newline.  The boolean is `true`
when end-of-input was reached, in which case the whole of
`skip_whitespace` returns. -/
def skipCommentLoop : Nat → Scanner → Scanner × Bool
  | 0, s => (s, false)
  | fuel + 1, s =>
    match s.peek with
    | some '\n' => (s, false)
    | some _ => skipCommentLoop fuel (s.advance).2
    | none => (s, true)

/-- The loop body of `Scanner::skip_whitespace`, fuelled.  Each iteration
consumes at least one character, so the fuel supplied by
`Scanner.skip_whitespace` can never run out. -/
def skipWhitespaceLoop : Nat → Scanner → Scanner
  | 0, s => s
  | fuel + 1, s =>
    match s.peek with
    | some '\n' => skipWhitespaceLoop fuel ({ s with line := s.line + 1 }.advance).2
    | some c =>
      if c.isWhitespace then skipWhitespaceLoop fuel (s.advance).2
      else if c = '/' ∧ s.peek_next = some '/' then
        let p := skipCommentLoop fuel s
        if p.2 then p.1 else skipWhitespaceLoop fuel p.1
      else s
    | none => s

/-- `Scanner::skip_whitespace`. -/
def Scanner.skip_whitespace (s : Scanner) : Scanner :=
  skipWhitespaceLoop (2 * s.source.length + 2) s

/-- `Scanner::make_token`: the lexeme is the source slice between the
`start` and `current` iterators. -/
def Scanner.make_token (s : Scanner) (ty : TokenType) : Token :=
  { string := ⟨(s.source.drop s.start).take (s.current - s.start)⟩,
    line := s.line,
    token_type := ty }

/-- `Scanner::make_error_token`. -/
def Scanner.make_error_token (s : Scanner) (msg : String) : Token :=
  { string := msg, line := s.line, token_type := TokenError }

/-- `Scanner::make_string_token`: consume until the closing quote,
counting embedded newlines; end of input yields the unterminated-string
error token. -/
def makeStringTokenLoop : Nat → Scanner → Scanner × Token
  | 0, s => (s, s.make_error_token "Unterminated string.")
  | fuel + 1, s =>
    match s.peek with
    | some c =>
      if c = '"' then
        let s2 := (s.advance).2
        (s2, s2.make_token TokenString)
      else
        let s1 := if c = '\n' then { s with line := s.line + 1 } else s
        makeStringTokenLoop fuel (s1.advance).2
    | none => (s, s.make_error_token "Unterminated string.")

def Scanner.make_string_token (s : Scanner) : Scanner × Token :=
  makeStringTokenLoop (s.source.length + 1) s

/-- Consume a maximal run of characters satisfying `p`. -/
def consumeWhile (p : Char → Bool) : Nat → Scanner → Scanner
  | 0, s => s
  | fuel + 1, s =>
    match s.peek with
    | some c => if p c then consumeWhile p fuel (s.advance).2 else s
    | none => s

/-- `Scanner::make_number_token`: a digit run, optionally followed by a
`.` and another digit run (a trailing `.` without a digit after it is not
consumed). -/
def Scanner.make_number_token (s : Scanner) : Scanner × Token :=
  let s1 := consumeWhile is_lox_digit (s.source.length + 1) s
  let s2 :=
    if s1.peek = some '.' ∧ opt_is_lox_digit s1.peek_next then
      consumeWhile is_lox_digit (s1.source.length + 1) (s1.advance).2
    else s1
  (s2, s2.make_token TokenNumber)

/-- The keyword dispatch of `make_identifier_token`/`check_keyword`: the
source dispatches on the leading one or two characters and then requires
the remaining characters to equal the keyword's tail, ending exactly
where the lexeme ends — i.e. the lexeme is a keyword token exactly when
it matches one of the fixed keywords in full. -/
def keywordType (lex : List Char) : TokenType :=
  if lex = "and".toList then TokenAnd
  else if lex = "class".toList then TokenClass
  else if lex = "else".toList then TokenElse
  else if lex = "false".toList then TokenFalse
  else if lex = "for".toList then TokenFor
  else if lex = "fun".toList then TokenFun
  else if lex = "if".toList then TokenIf
  else if lex = "nil".toList then TokenNil
  else if lex = "or".toList then TokenOr
  else if lex = "print".toList then TokenPrint
  else if lex = "return".toList then TokenReturn
  else if lex = "super".toList then TokenSuper
  else if lex = "this".toList then TokenThis
  else if lex = "true".toList then TokenTrue
  else if lex = "var".toList then TokenVar
  else if lex = "while".toList then TokenWhile
  else TokenIdentifier

/-- `Scanner::make_identifier_token`: consume the maximal alphanumeric
run, then classify the lexeme via the keyword dispatch. -/
def Scanner.make_identifier_token (s : Scanner) : Scanner × Token :=
  let s1 := consumeWhile (fun c => is_lox_digit c || is_lox_alpha c)
      (s.source.length + 1) s
  let tok := s1.make_token TokenIdentifier
  (s1, { tok with token_type := keywordType tok.string.toList })

/-- The per-character dispatch of `Scanner::scan_token` (the arms of its
`match self.advance()` other than the end-of-input one); `s1` is the
scanner state just after consuming `c`. -/
def scanTokenChar (c : Char) (s1 : Scanner) : Scanner × Token :=
    if c = '(' then (s1, s1.make_token TokenLeftParen)
    else if c = ')' then (s1, s1.make_token TokenRightParen)
    else if c = '{' then (s1, s1.make_token TokenLeftBrace)
    else if c = '}' then (s1, s1.make_token TokenRightBrace)
    else if c = ';' then (s1, s1.make_token TokenSemicolon)
    else if c = ',' then (s1, s1.make_token TokenComma)
    else if c = '.' then (s1, s1.make_token TokenDot)
    else if c = '-' then (s1, s1.make_token TokenMinus)
    else if c = '+' then (s1, s1.make_token TokenPlus)
    else if c = '/' then (s1, s1.make_token TokenSlash)
    else if c = '*' then (s1, s1.make_token TokenStar)
    else if c = '!' then
      let p := s1.match_character '='
      (p.2, p.2.make_token (if p.1 then TokenBangEqual else TokenBang))
    else if c = '=' then
      let p := s1.match_character '='
      (p.2, p.2.make_token (if p.1 then TokenEqualEqual else TokenEqual))
    else if c = '<' then
      let p := s1.match_character '='
      (p.2, p.2.make_token (if p.1 then TokenLessEqual else TokenLess))
    else if c = '>' then
      let p := s1.match_character '='
      (p.2, p.2.make_token (if p.1 then TokenGreaterEqual else TokenGreater))
    else if c = '"' then s1.make_string_token
    else if is_lox_digit c then s1.make_number_token
    else if is_lox_alpha c then s1.make_identifier_token
    else (s1, s1.make_error_token "Unexpected character.")

/-- `Scanner::scan_token`: skip whitespace, reset `start`, and dispatch
on `self.advance()` — written out here as the match on the character
under `current` (with `current` incremented when one is consumed, exactly
as `advance` does), with end of input yielding the `Eof` token. -/
def Scanner.scan_token (s : Scanner) : Scanner × Token :=
  let sw := s.skip_whitespace
  let s0 := { sw with start := sw.current }
  match s0.source.get? s0.current with
  | none => (s0, { string := "", line := s0.line, token_type := TokenEof })
  | some c => scanTokenChar c { s0 with current := s0.current + 1 }

/-- The token produced by the `(k+1)`-th call to `scan_token` starting
from state `s`. -/
def scanNth (s : Scanner) : Nat → Token
  | 0 => (s.scan_token).2
  | k + 1 => scanNth (s.scan_token).1 k

/-! ## Values and chunks (`value.rs`, `bytecode.rs`, `chunk.rs`) -/

/-- Model of an `f64` value as an exact fraction `num / den`.  Every
numeric computation exercised by the theorems below stays on small
integers, where IEEE double arithmetic is exact and coincides with
fraction arithmetic.  (Plain `ℚ` is avoided only because its normalizing
operations do not reduce inside the kernel.) -/
structure F64 where
  num : Int
  den : Nat
deriving DecidableEq, Repr

def F64.ofInt (n : Int) : F64 := ⟨n, 1⟩

def F64.add (a b : F64) : F64 :=
  ⟨a.num * b.den + b.num * a.den, a.den * b.den⟩

def F64.sub (a b : F64) : F64 :=
  ⟨a.num * b.den - b.num * a.den, a.den * b.den⟩

def F64.mul (a b : F64) : F64 := ⟨a.num * b.num, a.den * b.den⟩

def F64.neg (a : F64) : F64 := ⟨-a.num, a.den⟩

/-- Division (division by zero, which `f64` maps to an infinity, is not
modelled and not exercised by any theorem). -/
def F64.div (a b : F64) : F64 :=
  if b.num < 0 then ⟨-(a.num * b.den), a.den * b.num.natAbs⟩
  else ⟨a.num * b.den, a.den * b.num.natAbs⟩

/-- `f64` equality of two fraction values (cross multiplication; the
denominators produced by parsing and arithmetic are positive). -/
def F64.beq (a b : F64) : Bool := a.num * b.den = b.num * a.den

/-- `f64` strict less-than. -/
def F64.blt (a b : F64) : Bool := a.num * b.den < b.num * a.den

/-- `f64` strict greater-than. -/
def F64.bgt (a b : F64) : Bool := F64.blt b a

/-- `write!(f, "{}", x)` on an `f64`: integral values print without a
decimal point.  Rust's decimal rendering of non-integral values is not
reproduced (no theorem below prints one). -/
def F64.display (x : F64) : String :=
  if x.den ≠ 0 ∧ x.num % (x.den : Int) = 0 then toString (x.num / (x.den : Int))
  else toString x.num ++ "/" ++ toString x.den

/-- The runtime `Value` type; the string variant holds an
interning-table handle. -/
inductive Value where
  | ValBool (b : Bool)
  | ValNil
  | ValNumber (x : F64)
  | ValObjString (s : LoxString)
deriving DecidableEq, Repr

open Value

/-- `Value::is_falsey`: `false` and `nil` are falsy, all else truthy. -/
def Value.is_falsey : Value → Bool
  | ValBool b => !b
  | ValNil => true
  | _ => false

/-- Escaping of one character as in Rust's `Debug` formatting of a
string (sufficient for the printable-ASCII contents exercised here). -/
def rustEscapeChar (c : Char) : String :=
  if c = '"' then "\\\""
  else if c = '\\' then "\\\\"
  else if c = '\n' then "\\n"
  else if c = '\r' then "\\r"
  else if c = '\t' then "\\t"
  else String.singleton c

/-- Rust `{:?}` (Debug) formatting of string content: the content is
wrapped in quote characters, with embedded escapes. -/
def debugFormatStr (s : String) : String :=
  "\"" ++ String.join (s.toList.map rustEscapeChar) ++ "\""

/-- `impl fmt::Display for Value`: booleans and numbers via `{}`, nil as
`nil`, and the string variant via `{:?}` — the Debug form of its content,
with surrounding quotes. -/
def displayValue : Value → String
  | ValBool b => toString b
  | ValNil => "nil"
  | ValNumber x => x.display
  | ValObjString s => debugFormatStr s.content

/-- The derived `PartialEq` on `Value` as used by `a == b` in the
`OpEqual` arm: structural on booleans and nil, `f64` equality on
numbers, handle identity on strings. -/
def valuesEqual : Value → Value → Bool
  | ValBool a, ValBool b => a = b
  | ValNil, ValNil => true
  | ValNumber a, ValNumber b => F64.beq a b
  | ValObjString a, ValObjString b => a = b
  | _, _ => false

/-- The `Opcodes` enumeration (the full instruction set used by
`compiler.rs`, `chunk.rs` and `vm.rs`). -/
inductive Opcodes where
  | OpReturn | OpConstant | OpNil | OpTrue | OpFalse
  | OpPop | OpEqual | OpGreater | OpLess
  | OpNegate | OpAdd | OpSubtract | OpMultiply | OpDivide | OpNot
  | OpPrint | OpGetGlobal | OpDefineGlobal | OpSetGlobal
deriving DecidableEq, Repr

open Opcodes

/-- `Opcodes as u8`.  The exact numbering is internal: it only needs to
agree between the emitter and `num::FromPrimitive::from_u8`. -/
def Opcodes.toByte : Opcodes → Nat
  | OpReturn => 0 | OpConstant => 1 | OpNil => 2 | OpTrue => 3 | OpFalse => 4
  | OpPop => 5 | OpEqual => 6 | OpGreater => 7 | OpLess => 8
  | OpNegate => 9 | OpAdd => 10 | OpSubtract => 11 | OpMultiply => 12
  | OpDivide => 13 | OpNot => 14
  | OpPrint => 15 | OpGetGlobal => 16 | OpDefineGlobal => 17
  | OpSetGlobal => 18

/-- `num::FromPrimitive::from_u8`: decode a byte back to an opcode;
unknown bytes yield `none`. -/
def opcodeFromByte (b : Nat) : Option Opcodes :=
  if b = 0 then some OpReturn else if b = 1 then some OpConstant
  else if b = 2 then some OpNil else if b = 3 then some OpTrue
  else if b = 4 then some OpFalse else if b = 5 then some OpPop
  else if b = 6 then some OpEqual else if b = 7 then some OpGreater
  else if b = 8 then some OpLess else if b = 9 then some OpNegate
  else if b = 10 then some OpAdd else if b = 11 then some OpSubtract
  else if b = 12 then some OpMultiply else if b = 13 then some OpDivide
  else if b = 14 then some OpNot else if b = 15 then some OpPrint
  else if b = 16 then some OpGetGlobal else if b = 17 then some OpDefineGlobal
  else if b = 18 then some OpSetGlobal
  else none

/-- A `Chunk`: code bytes, the parallel line map and the constant pool. -/
structure Chunk where
  code : List Nat
  lines : List Int
  constants : List Value
deriving DecidableEq, Repr

def Chunk.new : Chunk := ⟨[], [], []⟩

/-- `Chunk::write_chunk`. -/
def Chunk.write_chunk (ch : Chunk) (byte : Nat) (line : Int) : Chunk :=
  { ch with code := ch.code ++ [byte], lines := ch.lines ++ [line] }

/-- `Chunk::add_constant`: push the constant and return its index. -/
def Chunk.add_constant (ch : Chunk) (v : Value) : Nat × Chunk :=
  (ch.constants.length, { ch with constants := ch.constants ++ [v] })

/-- The `InterpretError` result type of `vm.rs`. -/
inductive InterpretError where
  | InterpretCompileError
  | InterpretRuntimeError
deriving DecidableEq, Repr

/-! ## Compiler (`compiler.rs`) -/

/-- The ten-level `Precedence` enumeration, lowest binding power
first. -/
inductive Precedence where
  | PrecNone | PrecAssignment | PrecOr | PrecAnd | PrecEquality
  | PrecComparison | PrecTerm | PrecFactor | PrecUnary | PrecCall
  | PrecPrimary
deriving DecidableEq, Repr

open Precedence

/-- The discriminant of a precedence level; the derived `PartialOrd`
compares these. -/
def Precedence.toNat : Precedence → Nat
  | PrecNone => 0 | PrecAssignment => 1 | PrecOr => 2 | PrecAnd => 3
  | PrecEquality => 4 | PrecComparison => 5 | PrecTerm => 6
  | PrecFactor => 7 | PrecUnary => 8 | PrecCall => 9 | PrecPrimary => 10

/-- `Precedence::get_next_highest`.  The source panics on `PrecPrimary`
("tried to upgrade highest"); that arm is unreachable, because the only
caller (`binary`) applies it to table precedences that are at most
`PrecFactor`. -/
def Precedence.get_next_highest : Precedence → Precedence
  | PrecNone => PrecAssignment
  | PrecAssignment => PrecOr
  | PrecOr => PrecAnd
  | PrecAnd => PrecEquality
  | PrecEquality => PrecComparison
  | PrecComparison => PrecTerm
  | PrecTerm => PrecFactor
  | PrecFactor => PrecUnary
  | PrecUnary => PrecCall
  | PrecCall => PrecPrimary
  | PrecPrimary => PrecPrimary

/-- Names for the prefix parse handlers stored in the rule table. -/
inductive PrefixKind where
  | pkGrouping | pkUnary | pkNumber | pkString | pkVariable | pkLiteral
deriving DecidableEq, Repr

/-- Names for the infix parse handlers stored in the rule table. -/
inductive InfixKind where
  | ikBinary
deriving DecidableEq, Repr

/-- A `ParseRule`: optional prefix handler, optional infix handler, and
the token's infix precedence. -/
structure ParseRule where
  prefixFn : Option PrefixKind
  infixFn : Option InfixKind
  precedence : Precedence

/-- `Parser::get_rule`: the rule table. -/
def get_rule : TokenType → ParseRule
  | TokenLeftParen => ⟨some .pkGrouping, none, PrecNone⟩
  | TokenRightParen => ⟨none, none, PrecNone⟩
  | TokenLeftBrace => ⟨none, none, PrecNone⟩
  | TokenRightBrace => ⟨none, none, PrecNone⟩
  | TokenComma => ⟨none, none, PrecNone⟩
  | TokenDot => ⟨none, none, PrecNone⟩
  | TokenMinus => ⟨some .pkUnary, some .ikBinary, PrecTerm⟩
  | TokenPlus => ⟨none, some .ikBinary, PrecTerm⟩
  | TokenSemicolon => ⟨none, none, PrecNone⟩
  | TokenSlash => ⟨none, some .ikBinary, PrecFactor⟩
  | TokenStar => ⟨none, some .ikBinary, PrecFactor⟩
  | TokenBang => ⟨some .pkUnary, none, PrecNone⟩
  | TokenBangEqual => ⟨none, some .ikBinary, PrecEquality⟩
  | TokenEqual => ⟨none, none, PrecNone⟩
  | TokenEqualEqual => ⟨none, some .ikBinary, PrecEquality⟩
  | TokenGreater => ⟨none, some .ikBinary, PrecComparison⟩
  | TokenGreaterEqual => ⟨none, some .ikBinary, PrecComparison⟩
  | TokenLess => ⟨none, some .ikBinary, PrecComparison⟩
  | TokenLessEqual => ⟨none, some .ikBinary, PrecComparison⟩
  | TokenIdentifier => ⟨some .pkVariable, none, PrecNone⟩
  | TokenString => ⟨some .pkString, none, PrecNone⟩
  | TokenNumber => ⟨some .pkNumber, none, PrecNone⟩
  | TokenAnd => ⟨none, none, PrecNone⟩
  | TokenClass => ⟨none, none, PrecNone⟩
  | TokenElse => ⟨none, none, PrecNone⟩
  | TokenFalse => ⟨some .pkLiteral, none, PrecNone⟩
  | TokenFor => ⟨none, none, PrecNone⟩
  | TokenFun => ⟨none, none, PrecNone⟩
  | TokenIf => ⟨none, none, PrecNone⟩
  | TokenNil => ⟨some .pkLiteral, none, PrecNone⟩
  | TokenOr => ⟨none, none, PrecNone⟩
  | TokenPrint => ⟨none, none, PrecNone⟩
  | TokenReturn => ⟨none, none, PrecNone⟩
  | TokenSuper => ⟨none, none, PrecNone⟩
  | TokenThis => ⟨none, none, PrecNone⟩
  | TokenTrue => ⟨some .pkLiteral, none, PrecNone⟩
  | TokenVar => ⟨none, none, PrecNone⟩
  | TokenWhile => ⟨none, none, PrecNone⟩
  | TokenError => ⟨none, none, PrecNone⟩
  | TokenEof => ⟨none, none, PrecNone⟩

/-- The `Parser` state.  `errors` records the diagnostic messages that
`error_at` writes to stderr (suppressed while in panic mode). -/
structure Parser where
  scanner : Scanner
  current : Token
  previous : Token
  had_error : Bool
  panic_mode : Bool
  compiling_chunk : Chunk
  string_table : LoxStringTable
  errors : List String
deriving Repr

/-- `Parser::new`. -/
def Parser.new (table : LoxStringTable) (source : String) : Parser :=
  { scanner := Scanner.new source
    current := ⟨"Parser placeholder.", -1, TokenError⟩
    previous := ⟨"Parser placeholder.", -1, TokenError⟩
    had_error := false
    panic_mode := false
    compiling_chunk := Chunk.new
    string_table := table
    errors := [] }

/-- `Parser::error_at`: suppressed in panic mode; otherwise enters panic
mode, records the diagnostic and sets `had_error`.  (The token argument
only influences the printed location, which the model does not keep.) -/
def Parser.error_at (p : Parser) (_tok : Token) (message : String) : Parser :=
  if p.panic_mode then p
  else { p with panic_mode := true, had_error := true,
                errors := p.errors ++ [message] }

/-- `Parser::error_at_current`. -/
def Parser.error_at_current (p : Parser) (message : String) : Parser :=
  p.error_at p.current message

/-- `Parser::error` (reports at the previous token). -/
def Parser.error (p : Parser) (message : String) : Parser :=
  p.error_at p.previous message

/-- The loop inside `Parser::advance`: keep scanning while the scanner
hands back `Error` tokens, reporting each.  Every error token consumes at
least one source character, so the fuel cannot run out. -/
def advanceLoop : Nat → Parser → Parser
  | 0, p => p
  | fuel + 1, p =>
    let q := p.scanner.scan_token
    let p1 := { p with scanner := q.1, current := q.2 }
    if q.2.token_type ≠ TokenError then p1
    else advanceLoop fuel (p1.error_at_current q.2.string)

/-- `Parser::advance`. -/
def Parser.advance (p : Parser) : Parser :=
  advanceLoop (p.scanner.source.length + 2) { p with previous := p.current }

/-- `Parser::consume`. -/
def Parser.consume (p : Parser) (ty : TokenType) (message : String) : Parser :=
  if p.current.token_type = ty then p.advance else p.error_at_current message

/-- `Parser::check`. -/
def Parser.check (p : Parser) (ty : TokenType) : Bool :=
  p.current.token_type = ty

/-- `Parser::match_token`. -/
def Parser.match_token (p : Parser) (ty : TokenType) : Bool × Parser :=
  if p.check ty then (true, p.advance) else (false, p)

/-- `Parser::emit_byte` (the line recorded is the previous token's). -/
def Parser.emit_byte (p : Parser) (byte : Nat) : Parser :=
  { p with compiling_chunk := p.compiling_chunk.write_chunk byte p.previous.line }

/-- `Parser::emit_bytes`. -/
def Parser.emit_bytes (p : Parser) (b1 b2 : Nat) : Parser :=
  (p.emit_byte b1).emit_byte b2

/-- `Parser::make_constant`: the constant is pushed unconditionally;
an index beyond 255 reports "Too many constants in one chunk." and
substitutes index 0. -/
def Parser.make_constant (p : Parser) (v : Value) : Nat × Parser :=
  let q := p.compiling_chunk.add_constant v
  let p := { p with compiling_chunk := q.2 }
  if q.1 > 255 then (0, p.error "Too many constants in one chunk.")
  else (q.1, p)

/-- `Parser::emit_constant`. -/
def Parser.emit_constant (p : Parser) (v : Value) : Parser :=
  let q := p.make_constant v
  q.2.emit_bytes OpConstant.toByte q.1

/-- `Parser::identifier_constant`: intern the identifier text and store
it as a string constant. -/
def Parser.identifier_constant (p : Parser) (name : Token) : Nat × Parser :=
  let a := allocate_string_from_str p.string_table name.string
  Parser.make_constant { p with string_table := a.2 } (ValObjString a.1)

/-- `Parser::define_variable`. -/
def Parser.define_variable (p : Parser) (global : Nat) : Parser :=
  p.emit_bytes OpDefineGlobal.toByte global

/-- `Parser::number`: the lexeme is parsed to a number
(`f64::from_str`). -/
def digitsToNat (cs : List Char) : Nat :=
  cs.foldl (fun a c => 10 * a + (c.toNat - '0'.toNat)) 0

/-- Numeric value of a number lexeme (digits, optionally `.` and
digits), exactly the value `f64::from_str` produces on the lexemes the
scanner can emit (all claim-relevant lexemes are small integers, where
`f64` represents the value exactly). -/
def parseNumber (s : String) : F64 :=
  let cs := s.toList
  let ip := cs.takeWhile is_lox_digit
  let rest := cs.dropWhile is_lox_digit
  match rest with
  | '.' :: fp =>
      let frac := fp.takeWhile is_lox_digit
      ⟨(digitsToNat ip : Int) * (10 ^ frac.length : Nat) + (digitsToNat frac : Int),
        10 ^ frac.length⟩
  | _ => F64.ofInt (digitsToNat ip : Int)

/-- `Parser::number` prefix handler. -/
def numberFn (_can_assign : Bool) (p : Parser) : Parser :=
  p.emit_constant (ValNumber (parseNumber p.previous.string))

/-- `Parser::string` prefix handler: strip the delimiting quotes, intern
the content, and emit it as a string constant. -/
def stringFn (_can_assign : Bool) (p : Parser) : Parser :=
  let content : String := ⟨(p.previous.string.toList.drop 1).dropLast⟩
  let a := allocate_string_from_str p.string_table content
  Parser.emit_constant { p with string_table := a.2 } (ValObjString a.1)

/-- `Parser::literal` prefix handler. -/
def literalFn (_can_assign : Bool) (p : Parser) : Parser :=
  match p.previous.token_type with
  | TokenFalse => p.emit_byte OpFalse.toByte
  | TokenNil => p.emit_byte OpNil.toByte
  | TokenTrue => p.emit_byte OpTrue.toByte
  | _ => p

mutual

/-- `Parser::parse_precedence`: consume one token, run its prefix
handler (erroring with "Expect expression." when it has none), fold infix
operators of at-least-the-requested precedence, and finally reject a
stray `=` when parsing in an assignment-eligible context.  All parsing
functions are fuelled; the fuel is generous enough for every concrete
program considered, and the theorems below never rely on the
fuel-exhausted branch. -/
def parse_precedence : Nat → Precedence → Parser → Parser
  | 0, _, p => p
  | fuel + 1, prec, p =>
    let p := p.advance
    match (get_rule p.previous.token_type).prefixFn with
    | none => p.error "Expect expression."
    | some pk =>
      let can_assign : Bool := prec.toNat ≤ PrecAssignment.toNat
      let p := runPrefix fuel pk can_assign p
      let p := infixLoop fuel prec can_assign p
      if can_assign then
        let m := p.match_token TokenEqual
        if m.1 then m.2.error "Invalid assignment target." else m.2
      else p

/-- The while-loop of `parse_precedence`: as long as the next token's
infix precedence is at least the requested one, consume it and run its
infix handler.  The `none` arm mirrors the source's `unwrap`, which is
unreachable: every token whose table precedence is above `PrecNone` has
an infix handler. -/
def infixLoop : Nat → Precedence → Bool → Parser → Parser
  | 0, _, _, p => p
  | fuel + 1, prec, can_assign, p =>
    if prec.toNat ≤ (get_rule p.current.token_type).precedence.toNat then
      let p := p.advance
      match (get_rule p.previous.token_type).infixFn with
      | some ik => infixLoop fuel prec can_assign (runInfix fuel ik can_assign p)
      | none => p
    else p

/-- Dispatch a prefix handler named in the rule table. -/
def runPrefix : Nat → PrefixKind → Bool → Parser → Parser
  | 0, _, _, p => p
  | fuel + 1, pk, can_assign, p =>
    match pk with
    | .pkGrouping => grouping fuel can_assign p
    | .pkUnary => unaryFn fuel can_assign p
    | .pkNumber => numberFn can_assign p
    | .pkString => stringFn can_assign p
    | .pkVariable => variableFn fuel can_assign p
    | .pkLiteral => literalFn can_assign p

/-- Dispatch an infix handler named in the rule table. -/
def runInfix : Nat → InfixKind → Bool → Parser → Parser
  | 0, _, _, p => p
  | fuel + 1, .ikBinary, can_assign, p => binaryFn fuel can_assign p

/-- `Parser::expression`. -/
def expression : Nat → Parser → Parser
  | 0, p => p
  | fuel + 1, p => parse_precedence fuel PrecAssignment p

/-- `Parser::grouping`. -/
def grouping : Nat → Bool → Parser → Parser
  | 0, _, p => p
  | fuel + 1, _, p =>
    (expression fuel p).consume TokenRightParen "Expect ')' after expression."

/-- `Parser::unary`: compile the operand at unary precedence, then emit
the operator (the wildcard arm mirrors the source's `unreachable!`). -/
def unaryFn : Nat → Bool → Parser → Parser
  | 0, _, p => p
  | fuel + 1, _, p =>
    let operator_type := p.previous.token_type
    let p := parse_precedence fuel PrecUnary p
    match operator_type with
    | TokenBang => p.emit_byte OpNot.toByte
    | TokenMinus => p.emit_byte OpNegate.toByte
    | _ => p

/-- `Parser::binary`: compile the right operand one precedence level
higher, then emit the operator; `!=`, `>=`, `<=` are synthesized as two
instructions. -/
def binaryFn : Nat → Bool → Parser → Parser
  | 0, _, p => p
  | fuel + 1, _, p =>
    let operator_type := p.previous.token_type
    let rule := get_rule operator_type
    let p := parse_precedence fuel rule.precedence.get_next_highest p
    match operator_type with
    | TokenBangEqual => p.emit_bytes OpEqual.toByte OpNot.toByte
    | TokenEqualEqual => p.emit_byte OpEqual.toByte
    | TokenGreater => p.emit_byte OpGreater.toByte
    | TokenGreaterEqual => p.emit_bytes OpLess.toByte OpNot.toByte
    | TokenLess => p.emit_byte OpLess.toByte
    | TokenLessEqual => p.emit_bytes OpGreater.toByte OpNot.toByte
    | TokenPlus => p.emit_byte OpAdd.toByte
    | TokenMinus => p.emit_byte OpSubtract.toByte
    | TokenStar => p.emit_byte OpMultiply.toByte
    | TokenSlash => p.emit_byte OpDivide.toByte
    | _ => p

/-- `Parser::named_variable`: intern the identifier as a constant; under
an assignment-eligible context a following `=` compiles the value and a
`SetGlobal`, otherwise a `GetGlobal` is emitted. -/
def named_variable : Nat → Token → Bool → Parser → Parser
  | 0, _, _, p => p
  | fuel + 1, tok, can_assign, p =>
    let q := p.identifier_constant tok
    if can_assign then
      let m := q.2.match_token TokenEqual
      if m.1 then (expression fuel m.2).emit_bytes OpSetGlobal.toByte q.1
      else m.2.emit_bytes OpGetGlobal.toByte q.1
    else q.2.emit_bytes OpGetGlobal.toByte q.1

/-- `Parser::variable`. -/
def variableFn : Nat → Bool → Parser → Parser
  | 0, _, p => p
  | fuel + 1, can_assign, p => named_variable fuel p.previous can_assign p

end

/-- The loop of `Parser::synchronize`: advance until just past a `;` or
until the next token starts a declaration/statement (or end of input). -/
def synchronizeLoop : Nat → Parser → Parser
  | 0, p => p
  | fuel + 1, p =>
    if p.current.token_type = TokenEof then p
    else if p.previous.token_type = TokenSemicolon then p
    else
      match p.current.token_type with
      | TokenClass | TokenFun | TokenVar | TokenFor | TokenIf
      | TokenWhile | TokenPrint | TokenReturn => p
      | _ => synchronizeLoop fuel p.advance

/-- `Parser::synchronize`: clear panic mode, then resynchronize. -/
def Parser.synchronize (p : Parser) : Parser :=
  synchronizeLoop (p.scanner.source.length + 2) { p with panic_mode := false }

/-- `Parser::parse_variable`. -/
def parse_variable (fuel : Nat) (p : Parser) (error_message : String) :
    Nat × Parser :=
  let _ := fuel
  let p := p.consume TokenIdentifier error_message
  p.identifier_constant p.previous

/-- `Parser::var_declaration`. -/
def var_declaration (fuel : Nat) (p : Parser) : Parser :=
  let q := parse_variable fuel p "Expect variable name."
  let m := q.2.match_token TokenEqual
  let p := if m.1 then expression fuel m.2 else m.2.emit_byte OpNil.toByte
  let p := p.consume TokenSemicolon "Expect ';' after variable declaration"
  p.define_variable q.1

/-- `Parser::expression_statement`. -/
def expression_statement (fuel : Nat) (p : Parser) : Parser :=
  (((expression fuel p).consume TokenSemicolon
      "Expect ';' after value.")).emit_byte OpPop.toByte

/-- `Parser::print_statement`. -/
def print_statement (fuel : Nat) (p : Parser) : Parser :=
  (((expression fuel p).consume TokenSemicolon
      "Expect ';' after value.")).emit_byte OpPrint.toByte

/-- `Parser::statement`. -/
def statement (fuel : Nat) (p : Parser) : Parser :=
  let m := p.match_token TokenPrint
  if m.1 then print_statement fuel m.2 else expression_statement fuel m.2

/-- `Parser::declaration`: a `var` declaration or a statement, followed
by resynchronization when a parse error put the parser in panic mode. -/
def declaration (fuel : Nat) (p : Parser) : Parser :=
  let m := p.match_token TokenVar
  let p := if m.1 then var_declaration fuel m.2 else statement fuel m.2
  if p.panic_mode then p.synchronize else p

/-- The top-level loop of `compile`: declarations until `Eof`. -/
def compileLoop : Nat → Parser → Parser
  | 0, p => p
  | fuel + 1, p =>
    let m := p.match_token TokenEof
    if m.1 then m.2
    else compileLoop fuel (declaration fuel m.2)

/-- `Parser::end_compiler`: emit the implicit end-of-program
`Return`. -/
def end_compiler (p : Parser) : Parser :=
  p.emit_byte OpReturn.toByte

/-- `compiler::compile`: prime the parser, compile all declarations,
emit the trailing `Return`, and fail with `InterpretCompileError` iff
`had_error` is set.  Also returns the final interning table and the
reported diagnostics. -/
def compile (table : LoxStringTable) (source : String) :
    Except InterpretError Chunk × LoxStringTable × List String :=
  let p := Parser.new table source
  let p := p.advance
  let p := compileLoop (source.length * 4 + 64) p
  let p := end_compiler p
  if p.had_error then
    (Except.error InterpretError.InterpretCompileError, p.string_table, p.errors)
  else (Except.ok p.compiling_chunk, p.string_table, p.errors)

/-! ## Virtual machine (`vm.rs`) -/

/-- The VM state.  The stack is a list with its head as the top
(`push` conses, `pop` takes the head, `peek d` reads index `d` from the
top, matching `stack[len - 1 - d]`).  `globals` is the
`HashMap<LoxString, Value>` as an association list, and `output` records
the lines written by `OpPrint`'s `println!`. -/
structure VM where
  chunk : Chunk
  ip : Nat
  stack : List Value
  globals : List (LoxString × Value)
  string_table : LoxStringTable
  output : List String
deriving DecidableEq, Repr

/-- `VM::new`. -/
def VM.new : VM :=
  ⟨Chunk.new, 0, [], [], LoxStringTable.new, []⟩

/-- `HashMap::get` on the globals map (`LoxString` keys compare by the
handle, i.e. structurally in this model). -/
def globalsGet (g : List (LoxString × Value)) (k : LoxString) : Option Value :=
  (g.find? (fun e => e.1 = k)).map (fun e => e.2)

/-- `HashMap::insert` on the globals map: replaces the value bound to an
equal key, otherwise appends a fresh binding. -/
def globalsInsert (g : List (LoxString × Value)) (k : LoxString) (v : Value) :
    List (LoxString × Value) :=
  if g.any (fun e => e.1 = k) then
    g.map (fun e => if e.1 = k then (k, v) else e)
  else g ++ [(k, v)]

/-- Result of dispatching one instruction.  `panicked` is a process
abort (a failed `unwrap` or an out-of-bounds index), kept distinct from
the recoverable `runtimeError` results; `runtimeError`'s message is
`none` for the unknown-opcode arm, which returns
`Err(InterpretRuntimeError)` directly without reporting or clearing the
stack. -/
inductive StepResult where
  | continueRun (vm : VM)
  | halt (vm : VM)
  | runtimeError (msg : Option String) (vm : VM)
  | panicked (msg : String) (vm : VM)
deriving DecidableEq, Repr

/-- `VM::runtime_error_formatted` followed by returning
`Err(InterpretRuntimeError)`: report the message (and the line from
`chunk.lines[ip - 1]`, not kept by the model) and clear the operand
stack. -/
def vmRuntimeError (vm : VM) (msg : String) : StepResult :=
  StepResult.runtimeError (some msg) { vm with stack := [] }

/-- The panic message of `Option::unwrap` on `None` (`VM::pop` on an
empty stack). -/
def unwrapNoneMsg : String := "called Option::unwrap on a None value"

/-- The panic message of an out-of-bounds slice index (`VM::peek` or a
direct index beyond the live data). -/
def indexOobMsg : String := "index out of bounds"

/-- `VM::read_constant`: read the operand byte and index the constant
pool, propagating the panic of an out-of-bounds index. -/
def readConstant (vm : VM) : Except String (Value × VM) :=
  match vm.chunk.code.get? vm.ip with
  | none => Except.error indexOobMsg
  | some idx =>
    let vm := { vm with ip := vm.ip + 1 }
    match vm.chunk.constants.get? idx with
    | none => Except.error indexOobMsg
    | some v => Except.ok (v, vm)

/-- The `OpSetGlobal` arm of the dispatch loop.

Modelled from the spec: the `vm.rs` snapshot has no `OpSetGlobal` arm in
`VM::run` (the compiler emits the opcode and the disassembler in
`chunk.rs` decodes it, but its execution is absent from the sources
provided).  Per the spec's opcode table: pop the name constant, peek the
value; `globals[name]` must already exist, else a runtime error
(undefined variable, following the runtime-error protocol of reporting
and clearing the stack); on success the value is stored and left on the
stack, because assignment is itself an expression. -/
def opSetGlobal (vm : VM) : StepResult :=
  match readConstant vm with
  | Except.error m => StepResult.panicked m vm
  | Except.ok (Value.ValObjString name, vm) =>
    match vm.stack.get? 0 with
    | none => StepResult.panicked indexOobMsg vm
    | some v =>
      match globalsGet vm.globals name with
      | some _ =>
          StepResult.continueRun
            { vm with globals := globalsInsert vm.globals name v }
      | none =>
          vmRuntimeError vm ("Undefined variable '" ++ name.content ++ "'.")
  | Except.ok (_, vm) =>
      vmRuntimeError vm "OpDefineGlobal constant wasn't a string."

/-- Execute a single already-decoded opcode (the body of the dispatch
`match` in `VM::run`, with `ip` already advanced past the opcode
byte). -/
def execOp (op : Opcodes) (vm : VM) : StepResult :=
  match op with
  | OpPrint =>
    match vm.stack with
    | v :: rest =>
        StepResult.continueRun
          { vm with stack := rest, output := vm.output ++ [displayValue v] }
    | [] => StepResult.panicked unwrapNoneMsg vm
  | OpReturn => StepResult.halt vm
  | OpConstant =>
    match readConstant vm with
    | Except.error m => StepResult.panicked m vm
    | Except.ok (v, vm) => StepResult.continueRun { vm with stack := v :: vm.stack }
  | OpNegate =>
    match vm.stack.get? 0 with
    | none => StepResult.panicked indexOobMsg vm
    | some (Value.ValNumber x) =>
        StepResult.continueRun
          { vm with stack := Value.ValNumber x.neg :: vm.stack.tail }
    | some _ => vmRuntimeError vm "Operand must be a number."
  | OpNil => StepResult.continueRun { vm with stack := Value.ValNil :: vm.stack }
  | OpTrue => StepResult.continueRun { vm with stack := Value.ValBool true :: vm.stack }
  | OpFalse => StepResult.continueRun { vm with stack := Value.ValBool false :: vm.stack }
  | OpPop =>
    match vm.stack with
    | _ :: rest => StepResult.continueRun { vm with stack := rest }
    | [] => StepResult.panicked unwrapNoneMsg vm
  | OpGetGlobal =>
    match readConstant vm with
    | Except.error m => StepResult.panicked m vm
    | Except.ok (Value.ValObjString name, vm) =>
      match globalsGet vm.globals name with
      | none => vmRuntimeError vm ("Undefined variable '" ++ name.content ++ "'.")
      | some v => StepResult.continueRun { vm with stack := v :: vm.stack }
    | Except.ok (_, vm) =>
        vmRuntimeError vm "OpDefineGlobal constant wasn't a string."
  | OpDefineGlobal =>
    match readConstant vm with
    | Except.error m => StepResult.panicked m vm
    | Except.ok (Value.ValObjString name, vm) =>
      match vm.stack with
      | v :: rest =>
          StepResult.continueRun
            { vm with globals := globalsInsert vm.globals name v, stack := rest }
      | [] => StepResult.panicked indexOobMsg vm
    | Except.ok (_, vm) =>
        vmRuntimeError vm "OpDefineGlobal constant wasn't a string."
  | OpEqual =>
    match vm.stack with
    | b :: a :: rest =>
        StepResult.continueRun
          { vm with stack := Value.ValBool (valuesEqual a b) :: rest }
    | _ => StepResult.panicked unwrapNoneMsg vm
  | OpGreater =>
    match vm.stack with
    | Value.ValNumber b :: Value.ValNumber a :: rest =>
        StepResult.continueRun
          { vm with stack := Value.ValBool (F64.bgt a b) :: rest }
    | _ :: _ :: _ => vmRuntimeError vm "Operands must be numbers."
    | _ => StepResult.panicked unwrapNoneMsg vm
  | OpLess =>
    match vm.stack with
    | Value.ValNumber b :: Value.ValNumber a :: rest =>
        StepResult.continueRun
          { vm with stack := Value.ValBool (F64.blt a b) :: rest }
    | _ :: _ :: _ => vmRuntimeError vm "Operands must be numbers."
    | _ => StepResult.panicked unwrapNoneMsg vm
  | OpAdd =>
    match vm.stack.get? 0, vm.stack.get? 1 with
    | some (Value.ValObjString b), some (Value.ValObjString a) =>
        let q := concatenate vm.string_table a b
        StepResult.continueRun
          { vm with stack := Value.ValObjString q.1 :: vm.stack.drop 2,
                    string_table := q.2 }
    | some (Value.ValNumber b), some (Value.ValNumber a) =>
        StepResult.continueRun
          { vm with stack := Value.ValNumber (F64.add b a) :: vm.stack.drop 2 }
    | some _, some _ =>
        vmRuntimeError vm "Operand must be two numbers or two strings."
    | _, _ => StepResult.panicked indexOobMsg vm
  | OpSubtract =>
    match vm.stack with
    | Value.ValNumber b :: Value.ValNumber a :: rest =>
        StepResult.continueRun
          { vm with stack := Value.ValNumber (F64.sub a b) :: rest }
    | _ :: _ :: _ => vmRuntimeError vm "Operands must be numbers."
    | _ => StepResult.panicked unwrapNoneMsg vm
  | OpMultiply =>
    match vm.stack with
    | Value.ValNumber b :: Value.ValNumber a :: rest =>
        StepResult.continueRun
          { vm with stack := Value.ValNumber (F64.mul a b) :: rest }
    | _ :: _ :: _ => vmRuntimeError vm "Operands must be numbers."
    | _ => StepResult.panicked unwrapNoneMsg vm
  | OpDivide =>
    match vm.stack with
    | Value.ValNumber b :: Value.ValNumber a :: rest =>
        StepResult.continueRun
          { vm with stack := Value.ValNumber (F64.div a b) :: rest }
    | _ :: _ :: _ => vmRuntimeError vm "Operands must be numbers."
    | _ => StepResult.panicked unwrapNoneMsg vm
  | OpNot =>
    match vm.stack with
    | v :: rest =>
        StepResult.continueRun { vm with stack := Value.ValBool v.is_falsey :: rest }
    | [] => StepResult.panicked unwrapNoneMsg vm
  | OpSetGlobal => opSetGlobal vm

/-- One iteration of the dispatch loop: fetch the byte at `ip`, advance
`ip`, decode it (`None` from `from_u8` returns
`Err(InterpretRuntimeError)` directly), and execute it. -/
def step (vm : VM) : StepResult :=
  match vm.chunk.code.get? vm.ip with
  | none => StepResult.panicked indexOobMsg vm
  | some b =>
    let vm := { vm with ip := vm.ip + 1 }
    match opcodeFromByte b with
    | none => StepResult.runtimeError none vm
    | some op => execOp op vm

/-- Terminal outcome of running / interpreting. -/
inductive Outcome where
  | success
  | compileError
  | runtimeError (msg : Option String)
  | panicked (msg : String)
  | outOfFuel
deriving DecidableEq, Repr

/-- The dispatch loop of `VM::run`, fuelled.  Every instruction advances
`ip` by at least one, so `code.length + 1` units of fuel always
suffice. -/
def runLoop : Nat → VM → Outcome × VM
  | 0, vm => (Outcome.outOfFuel, vm)
  | fuel + 1, vm =>
    match step vm with
    | StepResult.continueRun vm => runLoop fuel vm
    | StepResult.halt vm => (Outcome.success, vm)
    | StepResult.runtimeError m vm => (Outcome.runtimeError m, vm)
    | StepResult.panicked m vm => (Outcome.panicked m, vm)

/-- `VM::run`. -/
def VM.run (vm : VM) : Outcome × VM :=
  runLoop (vm.chunk.code.length + 1) vm

/-- `VM::interpret`: compile (propagating compile failure), reset `ip`,
and run. -/
def VM.interpret (vm : VM) (source : String) : Outcome × VM :=
  let c := compile vm.string_table source
  match c.1 with
  | Except.error _ => (Outcome.compileError, { vm with string_table := c.2.1 })
  | Except.ok ch =>
      VM.run { vm with chunk := ch, ip := 0, string_table := c.2.1 }

/-- Interpret a source text on a fresh VM, observing the outcome, the
printed lines and the final operand stack. -/
def interpretObs (source : String) : Outcome × List String × List Value :=
  let r := VM.new.interpret source
  (r.1, r.2.output, r.2.stack)

instance {α β : Type} [DecidableEq α] [DecidableEq β] :
    DecidableEq (Except α β) := fun a b =>
  match a, b with
  | Except.error x, Except.error y =>
    if h : x = y then isTrue (by rw [h])
    else isFalse (fun hc => by cases hc; exact h rfl)
  | Except.ok x, Except.ok y =>
    if h : x = y then isTrue (by rw [h])
    else isFalse (fun hc => by cases hc; exact h rfl)
  | Except.error _, Except.ok _ => isFalse (fun hc => by cases hc)
  | Except.ok _, Except.error _ => isFalse (fun hc => by cases hc)

/-- A chunk whose first instruction pops the operand stack while it is
empty (the smallest piece of malformed bytecode exhibiting stack
underflow). -/
def underflowChunk : Chunk :=
  { code := [Opcodes.OpPop.toByte], lines := [123], constants := [] }

/-- The `(id, content)` pairs of the table's entries: everything about an
entry that is stable under refcount updates (its address and its
character data). -/
def entryKeys (t : LoxStringTable) : List (Nat × String) :=
  t.entries.map (fun e => (e.id, e.content))

/-- The contents held by the table's entries, in entry order. -/
def contentsList (t : LoxStringTable) : List String :=
  t.entries.map (fun e => e.content)

/-- A VM about to execute `SetGlobal` for the already-defined global `a`
with the value `2` on the stack. -/
def vmSetGlobalW : VM :=
  { chunk := { code := [18, 0], lines := [1, 1],
               constants := [Value.ValObjString ⟨0, "a"⟩] },
    ip := 0, stack := [Value.ValNumber ⟨2, 1⟩],
    globals := [(⟨0, "a"⟩, Value.ValNumber ⟨1, 1⟩)],
    string_table := ⟨[⟨0, "a", 2⟩], 1⟩, output := [] }

/-- A VM about to execute `DefineGlobal` for the already-defined global
`a` with the value `2` on the stack. -/
def vmDefineGlobalW : VM :=
  { chunk := { code := [17, 0], lines := [1, 1],
               constants := [Value.ValObjString ⟨0, "a"⟩] },
    ip := 0, stack := [Value.ValNumber ⟨2, 1⟩],
    globals := [(⟨0, "a"⟩, Value.ValNumber ⟨1, 1⟩)],
    string_table := ⟨[⟨0, "a", 2⟩], 1⟩, output := [] }

/-- A VM whose stack holds a string on top of a number, about to execute
`Add`. -/
def vmAddW : VM :=
  { chunk := Chunk.new, ip := 0,
    stack := [Value.ValObjString ⟨0, "a"⟩, Value.ValNumber ⟨1, 1⟩],
    globals := [], string_table := ⟨[⟨0, "a", 1⟩], 1⟩, output := [] }

/-- The chunk compiled from `var a = 1; a = 2; print a;`. -/
def chunkGlobalSet : Chunk :=
  { code := [1, 1, 17, 0, 1, 3, 18, 2, 5, 16, 4, 15, 0],
    lines := [1, 1, 1, 1, 1, 1, 1, 1, 1, 1, 1, 1, 1],
    constants := [Value.ValObjString ⟨0, "a"⟩, Value.ValNumber ⟨1, 1⟩,
                  Value.ValObjString ⟨0, "a"⟩, Value.ValNumber ⟨2, 1⟩,
                  Value.ValObjString ⟨0, "a"⟩] }

/-- The chunk compiled from `var a = 1; var a = 2; print a;`. -/
def chunkGlobalRedefine : Chunk :=
  { code := [1, 1, 17, 0, 1, 3, 17, 2, 16, 4, 15, 0],
    lines := [1, 1, 1, 1, 1, 1, 1, 1, 1, 1, 1, 1],
    constants := [Value.ValObjString ⟨0, "a"⟩, Value.ValNumber ⟨1, 1⟩,
                  Value.ValObjString ⟨0, "a"⟩, Value.ValNumber ⟨2, 1⟩,
                  Value.ValObjString ⟨0, "a"⟩] }

/-- The interning table after compiling either of the two global-variable
programs above (three allocations of `a`). -/
def tableGlobalProgs : LoxStringTable := ⟨[⟨0, "a", 3⟩], 1⟩

/-! ## Helper lemmas -/

/-- Splitting `interpretObs` at a successfully compiled chunk, so that
compilation and execution can be evaluated independently. -/
theorem interpretObs_eq_of_compile (src : String) (tc : Chunk)
    (tbl : LoxStringTable) (errs : List String)
    (h : compile LoxStringTable.new src = (Except.ok tc, tbl, errs)) :
    interpretObs src =
      ((VM.run { VM.new with chunk := tc, ip := 0, string_table := tbl }).1,
       (VM.run { VM.new with chunk := tc, ip := 0, string_table := tbl }).2.output,
       (VM.run { VM.new with chunk := tc, ip := 0, string_table := tbl }).2.stack) := by
  show ((VM.new.interpret src).1, (VM.new.interpret src).2.output,
        (VM.new.interpret src).2.stack) = _
  unfold VM.interpret
  rw [show VM.new.string_table = LoxStringTable.new from rfl, h]

/-- An if-then-else of token types differing from `x` on both branches
differs from `x`. -/
theorem ite_ne_tokenType {c : Prop} [Decidable c] {a b x : TokenType}
    (ha : a ≠ x) (hb : b ≠ x) : (if c then a else b) ≠ x := by
  split
  · exact ha
  · exact hb

/-- Lifting of `ite_ne_tokenType` to scanner results. -/
theorem ite_pair_ne_eof {c : Prop} [Decidable c] {a b : Scanner × Token}
    (ha : a.2.token_type ≠ TokenEof) (hb : b.2.token_type ≠ TokenEof) :
    (if c then a else b).2.token_type ≠ TokenEof := by
  split
  · exact ha
  · exact hb

/-- The string-literal loop only ever produces a `String` or an `Error`
token. -/
theorem makeStringTokenLoop_kind (fuel : Nat) : ∀ (s : Scanner),
    (makeStringTokenLoop fuel s).2.token_type = TokenString ∨
    (makeStringTokenLoop fuel s).2.token_type = TokenError := by
  induction fuel with
  | zero => intro s; right; rfl
  | succ f ih =>
    intro s
    rcases hE : s.peek with _ | c
    · right; simp [makeStringTokenLoop, hE, Scanner.make_error_token]
    · by_cases hc : c = '"'
      · left; simp [makeStringTokenLoop, hE, hc, Scanner.make_token]
      · have h2 := ih (((if c = '\n' then { s with line := s.line + 1 } else s).advance).2)
        simpa [makeStringTokenLoop, hE, hc] using h2

theorem make_string_token_ne_eof (s : Scanner) :
    (s.make_string_token).2.token_type ≠ TokenEof := by
  rcases makeStringTokenLoop_kind (s.source.length + 1) s with hk | hk <;>
    simp [Scanner.make_string_token, hk]

theorem make_number_token_kind (s : Scanner) :
    (s.make_number_token).2.token_type = TokenNumber := rfl

theorem keywordType_ne_eof (lex : List Char) : keywordType lex ≠ TokenEof := by
  unfold keywordType
  repeat' (first | apply ite_ne_tokenType | decide)

theorem make_identifier_token_kind (s : Scanner) :
    (s.make_identifier_token).2.token_type ≠ TokenEof :=
  keywordType_ne_eof _

set_option linter.unusedTactic false in
set_option linter.unreachableTactic false in
/-- No dispatch arm on a consumed character produces an `Eof` token. -/
theorem scanTokenChar_ne_eof (c : Char) (s1 : Scanner) :
    (scanTokenChar c s1).2.token_type ≠ TokenEof := by
  unfold scanTokenChar
  repeat' first
    | apply ite_pair_ne_eof
    | exact make_string_token_ne_eof _
    | exact make_identifier_token_kind _
    | (simp only [Scanner.make_number_token, Scanner.make_token]; decide)
    | (simp only [Scanner.make_token]; apply ite_ne_tokenType <;> decide)
    | (simp only [Scanner.make_token]; decide)
    | (simp only [Scanner.make_error_token]; decide)
    | decide

/-- With the scanner at end of input, `skip_whitespace` is the
identity. -/
theorem skipWhitespaceLoop_at_end (fuel : Nat) (s : Scanner)
    (h : s.source.get? s.current = none) : skipWhitespaceLoop fuel s = s := by
  cases fuel with
  | zero => rfl
  | succ f => simp only [skipWhitespaceLoop, Scanner.peek, h]

theorem skip_whitespace_at_end (s : Scanner) (h : s.source.get? s.current = none) :
    s.skip_whitespace = s :=
  skipWhitespaceLoop_at_end _ _ h

/-- At end of input, `scan_token` produces the `Eof` token and only
moves `start` up to `current`. -/
theorem scan_token_at_end (s : Scanner) (h : s.source.get? s.current = none) :
    s.scan_token = ({ s with start := s.current }, ⟨"", s.line, TokenEof⟩) := by
  simp only [Scanner.scan_token, skip_whitespace_at_end s h, h]

theorem scanNth_at_end (s : Scanner) (h : s.source.get? s.current = none) :
    ∀ k, (scanNth s k).token_type = TokenEof := by
  intro k
  induction k generalizing s with
  | zero => simp [scanNth, scan_token_at_end s h]
  | succ k ih =>
    rw [scanNth, scan_token_at_end s h]
    exact ih _ h

/-- A `scan_token` call can only return `Eof` from the end-of-input arm,
which leaves `current` at the (exhausted) end of the source. -/
theorem scan_token_eof_imp_at_end (s : Scanner)
    (h : (s.scan_token).2.token_type = TokenEof) :
    (s.scan_token).1.source.get? ((s.scan_token).1.current) = none := by
  rcases hE : (s.skip_whitespace).source.get? (s.skip_whitespace).current with _ | c
  · simp only [Scanner.scan_token, hE]
  · exfalso
    simp only [Scanner.scan_token, hE] at h
    exact scanTokenChar_ne_eof _ _ h

/-! ## Interning-table lemmas -/

theorem bump_none_iff (s : String) : ∀ (es : List StrEntry),
    bumpRefcount es s = none ↔ es.find? (fun e => e.content = s) = none := by
  intro es
  induction es with
  | nil => simp [bumpRefcount]
  | cons e es ih =>
    by_cases h : e.content = s
    · simp [bumpRefcount, List.find?, h]
    · simp [bumpRefcount, List.find?, h, ih]

theorem bump_some (s : String) : ∀ (es : List StrEntry) (i : Nat) (es' : List StrEntry),
    bumpRefcount es s = some (i, es') →
    (∃ e, es.find? (fun x => x.content = s) = some e ∧ e.id = i ∧ e.content = s) ∧
    es'.map (fun x => (x.id, x.content)) = es.map (fun x => (x.id, x.content)) := by
  intro es
  induction es with
  | nil => intro i es' h; simp [bumpRefcount] at h
  | cons e es ih =>
    intro i es' h
    by_cases hc : e.content = s
    · simp [bumpRefcount, hc] at h
      rcases h with ⟨h1, h2⟩
      subst h1 h2
      simp [List.find?, hc]
    · simp [bumpRefcount, hc] at h
      rcases h with ⟨p, es2, hbump, hpi, hes⟩
      rcases ih p es2 hbump with ⟨⟨e2, he2, hid, hcon⟩, hkeys⟩
      subst hpi
      rw [← hes]
      refine ⟨⟨e2, ?_, hid, hcon⟩, ?_⟩
      · simp [List.find?, hc, he2]
      · simp [hkeys]

theorem alloc_content (t : LoxStringTable) (s : String) :
    (allocate_string_from_str t s).1.content = s := by
  unfold allocate_string_from_str
  rcases hb : bumpRefcount t.entries s with _ | ⟨i, es⟩ <;> simp

theorem alloc_keys (t : LoxStringTable) (s : String) :
    entryKeys (allocate_string_from_str t s).2 =
      match findEntry t s with
      | some _ => entryKeys t
      | none => entryKeys t ++ [(t.nextId, s)] := by
  unfold allocate_string_from_str findEntry
  rcases hb : bumpRefcount t.entries s with _ | ⟨i, es⟩
  · rw [(bump_none_iff s t.entries).mp hb]
    simp [entryKeys]
  · rcases bump_some s t.entries i es hb with ⟨⟨e, he, _, _⟩, hkeys⟩
    rw [he]
    simpa [entryKeys] using hkeys

theorem alloc_handle (t : LoxStringTable) (s : String) :
    (allocate_string_from_str t s).1 =
      match findEntry t s with
      | some e => ⟨e.id, s⟩
      | none => ⟨t.nextId, s⟩ := by
  unfold allocate_string_from_str findEntry
  rcases hb : bumpRefcount t.entries s with _ | ⟨i, es⟩
  · rw [(bump_none_iff s t.entries).mp hb]
  · rcases bump_some s t.entries i es hb with ⟨⟨e, he, hid, _⟩, _⟩
    rw [he]
    simp [hid]

theorem findEntry_as_keys (t : LoxStringTable) (s : String) :
    (findEntry t s).map (fun e => (e.id, e.content)) =
      (entryKeys t).find? (fun p => p.2 = s) := by
  unfold findEntry entryKeys
  rw [List.find?_map]
  rfl

theorem findEntry_key_alloc_preserved (t : LoxStringTable) (s s2 : String) (i : Nat)
    (h : (findEntry t s2).map (fun e => (e.id, e.content)) = some (i, s2)) :
    (findEntry (allocate_string_from_str t s).2 s2).map
      (fun e => (e.id, e.content)) = some (i, s2) := by
  rw [findEntry_as_keys] at h ⊢
  rw [alloc_keys]
  rcases hf : findEntry t s with _ | e
  · simp [List.find?_append, h]
  · exact h

theorem findEntry_key_allocList_preserved (ss : List String) :
    ∀ (t : LoxStringTable) (s2 : String) (i : Nat),
    (findEntry t s2).map (fun e => (e.id, e.content)) = some (i, s2) →
    (findEntry (allocList t ss).2 s2).map (fun e => (e.id, e.content)) = some (i, s2) := by
  induction ss with
  | nil => intro t s2 i h; exact h
  | cons s ss ih =>
    intro t s2 i h
    exact ih _ _ _ (findEntry_key_alloc_preserved t s s2 i h)

theorem alloc_self_key (t : LoxStringTable) (s : String) :
    (findEntry (allocate_string_from_str t s).2 s).map (fun e => (e.id, e.content)) =
      some ((allocate_string_from_str t s).1.entryId, s) := by
  rw [findEntry_as_keys, alloc_keys, alloc_handle]
  rcases hf : findEntry t s with _ | e
  · have hk : (entryKeys t).find? (fun p => p.2 = s) = none := by
      rw [← findEntry_as_keys, hf]; rfl
    simp [List.find?_append, hk, List.find?]
  · have he : e.content = s := by
      have := List.find?_some hf
      simpa using this
    have hk : (entryKeys t).find? (fun p => p.2 = s) = some (e.id, s) := by
      rw [← findEntry_as_keys, hf]
      simp [he]
    simp [hk]

theorem handle_of_alloc_after (t : LoxStringTable) (s : String) (i : Nat)
    (h : (findEntry t s).map (fun e => (e.id, e.content)) = some (i, s)) :
    (allocate_string_from_str t s).1 = ⟨i, s⟩ := by
  rw [alloc_handle]
  rcases hf : findEntry t s with _ | e
  · rw [hf] at h; cases h
  · rw [hf] at h
    simp at h
    simp [h.1]

theorem contentsList_eq_keys_map (t : LoxStringTable) :
    contentsList t = (entryKeys t).map Prod.snd := by
  simp [contentsList, entryKeys]

theorem findEntry_none_iff (t : LoxStringTable) (s : String) :
    findEntry t s = none ↔ s ∉ contentsList t := by
  unfold findEntry contentsList
  rw [List.find?_eq_none]
  constructor
  · rintro h hmem
    rcases List.mem_map.mp hmem with ⟨e, he, hc⟩
    exact absurd (by simpa using hc) (by simpa using h e he)
  · intro h e he
    simp only [decide_eq_true_eq]
    intro hc
    exact h (List.mem_map.mpr ⟨e, he, hc⟩)

theorem alloc_contents (t : LoxStringTable) (s : String) :
    contentsList (allocate_string_from_str t s).2 =
      if s ∈ contentsList t then contentsList t
      else contentsList t ++ [s] := by
  rw [contentsList_eq_keys_map, alloc_keys]
  rcases hf : findEntry t s with _ | e
  · rw [if_neg ((findEntry_none_iff t s).mp hf)]
    simp [contentsList_eq_keys_map]
  · have he : e.content = s := by simpa using List.find?_some hf
    have hm : s ∈ contentsList t := by
      unfold contentsList
      exact List.mem_map.mpr ⟨e, List.mem_of_find?_eq_some hf, he⟩
    rw [if_pos hm]
    simp [contentsList_eq_keys_map]

theorem entries_length_eq_contents (t : LoxStringTable) :
    t.entries.length = (contentsList t).length := by
  simp [contentsList]

theorem allocList_entry_count (ss : List String) :
    ∀ (t : LoxStringTable), (contentsList t).Nodup →
    (allocList t ss).2.entries.length =
      ((contentsList t).toFinset ∪ ss.toFinset).card := by
  induction ss with
  | nil =>
    intro t hnd
    rw [entries_length_eq_contents]
    show (contentsList t).length = _
    simp [List.toFinset_card_of_nodup hnd]
  | cons s ss ih =>
    intro t hnd
    have hstep : (allocList t (s :: ss)).2 =
        (allocList (allocate_string_from_str t s).2 ss).2 := rfl
    rw [hstep]
    by_cases hm : s ∈ contentsList t
    · have hc : contentsList (allocate_string_from_str t s).2 = contentsList t := by
        rw [alloc_contents, if_pos hm]
      rw [ih _ (by rw [hc]; exact hnd)]
      rw [hc]
      congr 1
      ext x
      by_cases hxs : x = s
      · subst hxs
        simp only [List.toFinset_cons, Finset.mem_union, Finset.mem_insert,
          List.mem_toFinset]
        tauto
      · simp only [List.toFinset_cons, Finset.mem_union, Finset.mem_insert,
          List.mem_toFinset]
        tauto
    · have hc : contentsList (allocate_string_from_str t s).2 =
          contentsList t ++ [s] := by
        rw [alloc_contents, if_neg hm]
      have hnd2 : (contentsList (allocate_string_from_str t s).2).Nodup := by
        rw [hc]
        simp [List.nodup_append, hnd, hm]
      rw [ih _ hnd2, hc]
      congr 1
      ext x
      simp only [List.toFinset_append, List.toFinset_cons, Finset.mem_union,
        Finset.mem_insert, List.mem_toFinset, Finset.mem_singleton]
      tauto

theorem fresh_table_entry_count (ss : List String) :
    (allocList LoxStringTable.new ss).2.entries.length = ss.dedup.length := by
  rw [allocList_entry_count ss LoxStringTable.new (by simp [contentsList, LoxStringTable.new])]
  simp [contentsList, LoxStringTable.new, List.card_toFinset]

theorem alloc_single (s : String) (k : Nat) :
    allocate_string_from_str ⟨[⟨0, s, k⟩], 1⟩ s = (⟨0, s⟩, ⟨[⟨0, s, k + 1⟩], 1⟩) := by
  simp [allocate_string_from_str, bumpRefcount]

theorem allocN_single (s : String) (m : Nat) (hm : 1 ≤ m) : ∀ (k : Nat),
    allocN ⟨[⟨0, s, k⟩], 1⟩ s m = (⟨0, s⟩, ⟨[⟨0, s, k + m⟩], 1⟩) := by
  induction m with
  | zero => omega
  | succ m ih =>
    intro k
    rcases Nat.eq_or_lt_of_le hm with h1 | h1
    · rw [← h1]
      exact alloc_single s k
    · have hm' : 1 ≤ m := by omega
      rcases m with _ | m2
      · omega
      · show allocN (allocate_string_from_str ⟨[⟨0, s, k⟩], 1⟩ s).2 s (m2 + 2 - 1) = _
        rw [alloc_single s k]
        have h2 := ih hm' (k + 1)
        rw [show m2 + 2 - 1 = m2 + 1 from rfl, h2,
          show k + 1 + (m2 + 1) = k + (m2 + 1 + 1) from by omega]

theorem allocN_fresh (s : String) (n : Nat) (hn : 1 ≤ n) :
    allocN LoxStringTable.new s n = (⟨0, s⟩, ⟨[⟨0, s, n⟩], 1⟩) := by
  rcases n with _ | n
  · omega
  · rcases n with _ | n
    · rfl
    · show allocN (allocate_string_from_str LoxStringTable.new s).2 s (n + 1) = _
      have h1 : allocate_string_from_str LoxStringTable.new s =
          (⟨0, s⟩, ⟨[⟨0, s, 1⟩], 1⟩) := rfl
      rw [h1, allocN_single s (n + 1) (by omega) 1,
        show 1 + (n + 1) = n + 1 + 1 from by omega]

theorem dropLoxString_single (s : String) (k : Nat) :
    dropLoxString ⟨[⟨0, s, k⟩], 1⟩ ⟨0, s⟩ = ⟨[⟨0, s, k - 1⟩], 1⟩ := by
  simp [dropLoxString]

theorem dropN_single (s : String) : ∀ (m k : Nat),
    dropN ⟨[⟨0, s, k⟩], 1⟩ ⟨0, s⟩ m = ⟨[⟨0, s, k - m⟩], 1⟩ := by
  intro m
  induction m with
  | zero => intro k; rfl
  | succ m ih =>
    intro k
    show dropN (dropLoxString ⟨[⟨0, s, k⟩], 1⟩ ⟨0, s⟩) ⟨0, s⟩ m = _
    rw [dropLoxString_single, ih (k - 1),
      show k - 1 - m = k - (m + 1) from by omega]

theorem remove_string_single (s : String) :
    remove_string ⟨[⟨0, s, 1⟩], 1⟩ ⟨0, s⟩ = some ⟨[], 1⟩ := by
  simp [remove_string, findEntry, List.find?]

theorem findEntry_single (s : String) (k : Nat) :
    findEntry ⟨[⟨0, s, k⟩], 1⟩ s = some ⟨0, s, k⟩ := by
  simp [findEntry, List.find?]

/-! ## Claim theorems -/

/-- C1: executing `SetGlobal` (the opcode the compiler emits for
`name = value` on an existing global) stores the peeked value in the
globals map and leaves it on the stack when the name is already defined,
and reports an undefined-variable runtime error (clearing the stack)
when it is not; interpreting `var a = 1; a = 2; print a;` succeeds and
outputs `2`. -/
theorem setGlobal_assignment_semantics (vm : VM) (idx : Nat) (name : LoxString)
    (v : Value) (rest : List Value)
    (h1 : vm.chunk.code[vm.ip]? = some Opcodes.OpSetGlobal.toByte)
    (h2 : vm.chunk.code[vm.ip + 1]? = some idx)
    (h3 : vm.chunk.constants[idx]? = some (Value.ValObjString name))
    (h4 : vm.stack = v :: rest) :
    ((∃ w, globalsGet vm.globals name = some w) →
       step vm = StepResult.continueRun
         { vm with
           ip := vm.ip + 2,
           globals := globalsInsert vm.globals name v }) ∧
    (globalsGet vm.globals name = none →
       step vm = StepResult.runtimeError
         (some ("Undefined variable '" ++ name.content ++ "'."))
         { vm with
           ip := vm.ip + 2,
           stack := [] }) ∧
    interpretObs "var a = 1; a = 2; print a;" = (Outcome.success, ["2"], []) := by
  have hop : opcodeFromByte Opcodes.OpSetGlobal.toByte = some Opcodes.OpSetGlobal := by
    decide
  refine ⟨?_, ?_, ?_⟩
  · rintro ⟨w, hw⟩
    simp [step, h1, hop, execOp, opSetGlobal, readConstant, h2, h3, h4, hw,
      vmRuntimeError]
  · intro hw
    simp [step, h1, hop, execOp, opSetGlobal, readConstant, h2, h3, h4, hw,
      vmRuntimeError]
  · rw [interpretObs_eq_of_compile "var a = 1; a = 2; print a;" chunkGlobalSet
        tableGlobalProgs [] (by decide)]
    decide

/-- Witness for C1 at a concrete VM state. -/
theorem setGlobal_assignment_semantics_witness :
    vmSetGlobalW.chunk.code[vmSetGlobalW.ip]? = some Opcodes.OpSetGlobal.toByte ∧
    vmSetGlobalW.stack = [Value.ValNumber ⟨2, 1⟩] ∧
    step vmSetGlobalW = StepResult.continueRun
      { vmSetGlobalW with
        ip := 2,
        globals := globalsInsert vmSetGlobalW.globals ⟨0, "a"⟩ (Value.ValNumber ⟨2, 1⟩) } :=
  ⟨by decide, by decide,
    ((setGlobal_assignment_semantics vmSetGlobalW 0 ⟨0, "a"⟩ (Value.ValNumber ⟨2, 1⟩) []
      (by decide) (by decide) (by decide) (by decide)).1
      ⟨Value.ValNumber ⟨1, 1⟩, by decide⟩)⟩

/-- C2: malformed bytecode that pops the operand stack while it is empty
does not produce a recoverable `RuntimeError`: `VM::pop` unwraps the
`None` from `Vec::pop`, aborting the process.  The run of the one-`Pop`
chunk on an empty stack ends in the modelled panic, and in particular in
no `runtimeError` outcome. -/
theorem pop_on_empty_stack_panics :
    (VM.run { VM.new with chunk := underflowChunk }).1 =
      Outcome.panicked unwrapNoneMsg ∧
    ∀ msg, (VM.run { VM.new with chunk := underflowChunk }).1 ≠
      Outcome.runtimeError msg := by
  refine ⟨by decide, ?_⟩
  intro msg h
  rw [show (VM.run { VM.new with chunk := underflowChunk }).1 =
      Outcome.panicked unwrapNoneMsg from by decide] at h
  cases h

set_option maxHeartbeats 1600000 in
/-- C3, counterexample: interpreting `print "ab" + "cd";` does not write
the bare characters `abcd`: the claim's conjunction of success and
output `abcd` is false on the code. -/
theorem print_concat_output_not_bare :
    ¬ ((interpretObs "print \"ab\" + \"cd\";").1 = Outcome.success ∧
       (interpretObs "print \"ab\" + \"cd\";").2.1 = ["abcd"]) := by decide

set_option maxHeartbeats 1600000 in
/-- C3, amended: interpreting `print "ab" + "cd";` succeeds and writes
the Debug form of the concatenated string — `"abcd"`, with surrounding
quote characters — followed by a newline (`Display` for the string
variant formats the content with `{:?}`). -/
theorem print_concat_outputs_debug_form :
    interpretObs "print \"ab\" + \"cd\";" =
      (Outcome.success, ["\"abcd\""], []) := by decide

set_option maxHeartbeats 1600000 in
/-- C4: `Add` with one number and one string operand (in either order)
reports the operands-must-be-two-numbers-or-two-strings runtime error
and clears the operand stack; interpreting `print 1 + "a";` fails with
that message, prints nothing, and leaves the stack empty. -/
theorem add_number_string_type_error :
    (∀ (vm : VM) (x : F64) (s2 : LoxString) (rest : List Value),
        vm.stack = Value.ValObjString s2 :: Value.ValNumber x :: rest →
        execOp Opcodes.OpAdd vm =
          StepResult.runtimeError
            (some "Operand must be two numbers or two strings.")
            { vm with stack := [] }) ∧
    (∀ (vm : VM) (x : F64) (s2 : LoxString) (rest : List Value),
        vm.stack = Value.ValNumber x :: Value.ValObjString s2 :: rest →
        execOp Opcodes.OpAdd vm =
          StepResult.runtimeError
            (some "Operand must be two numbers or two strings.")
            { vm with stack := [] }) ∧
    interpretObs "print 1 + \"a\";" =
      (Outcome.runtimeError (some "Operand must be two numbers or two strings."),
        [], []) := by
  refine ⟨?_, ?_, by decide⟩
  · intro vm x s2 rest h
    simp [execOp, h, vmRuntimeError]
  · intro vm x s2 rest h
    simp [execOp, h, vmRuntimeError]

/-- Witness for C4 at a concrete VM state. -/
theorem add_number_string_type_error_witness :
    vmAddW.stack = [Value.ValObjString ⟨0, "a"⟩, Value.ValNumber ⟨1, 1⟩] ∧
    execOp Opcodes.OpAdd vmAddW =
      StepResult.runtimeError (some "Operand must be two numbers or two strings.")
        { vmAddW with stack := [] } :=
  ⟨by decide,
    add_number_string_type_error.1 vmAddW ⟨1, 1⟩ ⟨0, "a"⟩ [] (by decide)⟩

set_option maxHeartbeats 1600000 in
/-- C5: multiplication binds tighter than addition and parentheses
override precedence: `print 1 + 2 * 3;` outputs `7` (so not `9`), and
`print (1 + 2) * 3;` outputs `9`. -/
theorem precedence_correctness :
    interpretObs "print 1 + 2 * 3;" = (Outcome.success, ["7"], []) ∧
    interpretObs "print (1 + 2) * 3;" = (Outcome.success, ["9"], []) :=
  ⟨by decide, by decide⟩

set_option maxHeartbeats 1600000 in
/-- C6: compiling `1 + 2 = 3;` fails as a `CompileError` — not a
`RuntimeError` — with the single reported diagnostic "Invalid assignment
target." (the stray `=` is rejected because the enclosing context parses
at assignment precedence while the `+` chain is not an assignable
target). -/
theorem invalid_assignment_target_compile_error :
    (compile LoxStringTable.new "1 + 2 = 3;").1 =
      Except.error InterpretError.InterpretCompileError ∧
    (compile LoxStringTable.new "1 + 2 = 3;").2.2 =
      ["Invalid assignment target."] ∧
    interpretObs "1 + 2 = 3;" = (Outcome.compileError, [], []) :=
  ⟨by decide, by decide, by decide⟩

/-- C7: two allocations of the same content from the same table — with
any other allocations in between — return the identical handle;
`concatenate` hands out exactly the handle an allocation of the
concatenated content would; and the entry count of a table populated
from fresh equals the number of distinct contents allocated. -/
theorem interning_uniqueness (t : LoxStringTable) (s : String) (mid : List String) :
    (allocate_string_from_str
        (allocList (allocate_string_from_str t s).2 mid).2 s).1 =
      (allocate_string_from_str t s).1 ∧
    (∀ a b : LoxString,
      (concatenate t a b).1 =
        (allocate_string_from_str t (a.content ++ b.content)).1) ∧
    (∀ ss : List String,
      (allocList LoxStringTable.new ss).2.entries.length = ss.dedup.length) := by
  refine ⟨?_, fun a b => rfl, fun ss => fresh_table_entry_count ss⟩
  have h1 := alloc_self_key t s
  have h2 := findEntry_key_allocList_preserved mid _ s _ h1
  have h3 := handle_of_alloc_after _ s _ h2
  rw [h3]
  have hc := alloc_content t s
  rcases hh : (allocate_string_from_str t s).1 with ⟨i, c⟩
  rw [hh] at hc
  simp at hc
  rw [hc]

/-- C8: allocating the same content `n ≥ 1` times and dropping `n - 1`
handles leaves the entry present with refcount exactly 1; at that point
`remove_string` succeeds (no assertion violated), while dropping the
last handle instead brings the refcount to 0, after which the entry
satisfies its own drop-time assertion. -/
theorem refcount_accounting (s : String) (n : Nat) (hn : 1 ≤ n) :
    findEntry
        (dropN (allocN LoxStringTable.new s n).2
          (allocN LoxStringTable.new s n).1 (n - 1)) s =
      some ⟨0, s, 1⟩ ∧
    remove_string
        (dropN (allocN LoxStringTable.new s n).2
          (allocN LoxStringTable.new s n).1 (n - 1))
        (allocN LoxStringTable.new s n).1 = some ⟨[], 1⟩ ∧
    (∃ e, findEntry
        (dropLoxString
          (dropN (allocN LoxStringTable.new s n).2
            (allocN LoxStringTable.new s n).1 (n - 1))
          (allocN LoxStringTable.new s n).1) s = some e ∧
      e.refcount = 0 ∧ entryDroppable e) := by
  rw [allocN_fresh s n hn]
  show findEntry (dropN ⟨[⟨0, s, n⟩], 1⟩ ⟨0, s⟩ (n - 1)) s = some ⟨0, s, 1⟩ ∧
    remove_string (dropN ⟨[⟨0, s, n⟩], 1⟩ ⟨0, s⟩ (n - 1)) ⟨0, s⟩ = some ⟨[], 1⟩ ∧
    (∃ e, findEntry (dropLoxString (dropN ⟨[⟨0, s, n⟩], 1⟩ ⟨0, s⟩ (n - 1)) ⟨0, s⟩) s =
        some e ∧
      e.refcount = 0 ∧ entryDroppable e)
  rw [dropN_single s (n - 1) n, show n - (n - 1) = 1 from by omega]
  refine ⟨findEntry_single s 1, remove_string_single s, ⟨0, s, 0⟩, ?_, rfl, rfl⟩
  rw [dropLoxString_single]
  exact findEntry_single s 0

/-- Witness for C8 with `n = 3` and content `abcd`. -/
theorem refcount_accounting_witness :
    (1 ≤ 3) ∧
    (findEntry
        (dropN (allocN LoxStringTable.new "abcd" 3).2
          (allocN LoxStringTable.new "abcd" 3).1 2) "abcd" =
      some ⟨0, "abcd", 1⟩ ∧
     remove_string
        (dropN (allocN LoxStringTable.new "abcd" 3).2
          (allocN LoxStringTable.new "abcd" 3).1 2)
        (allocN LoxStringTable.new "abcd" 3).1 = some ⟨[], 1⟩ ∧
     (∃ e, findEntry
        (dropLoxString
          (dropN (allocN LoxStringTable.new "abcd" 3).2
            (allocN LoxStringTable.new "abcd" 3).1 2)
          (allocN LoxStringTable.new "abcd" 3).1) "abcd" = some e ∧
       e.refcount = 0 ∧ entryDroppable e)) :=
  ⟨by decide, refcount_accounting "abcd" 3 (by decide)⟩

/-- C9: once `scan_token` returns an `Eof` token, every subsequent call
on the resulting scanner also returns an `Eof` token. -/
theorem scan_token_eof_idempotent (s : Scanner)
    (h : (s.scan_token).2.token_type = TokenEof) (k : Nat) :
    (scanNth (s.scan_token).1 k).token_type = TokenEof :=
  scanNth_at_end _ (scan_token_eof_imp_at_end s h) k

/-- Witness for C9 on the empty source. -/
theorem scan_token_eof_idempotent_witness :
    ((Scanner.new "").scan_token).2.token_type = TokenEof ∧
    (scanNth ((Scanner.new "").scan_token).1 2).token_type = TokenEof :=
  ⟨by decide, scan_token_eof_idempotent (Scanner.new "") (by decide) 2⟩

set_option linter.unusedVariables false in
/-- C10: executing `DefineGlobal` with a name already present in the
globals map raises no error — it replaces the previous binding and pops
the value; interpreting `var a = 1; var a = 2; print a;` succeeds and
outputs `2`. -/
theorem defineGlobal_redefinition_silent (vm : VM) (idx : Nat) (name : LoxString)
    (v w : Value) (rest : List Value)
    (h1 : vm.chunk.code[vm.ip]? = some Opcodes.OpDefineGlobal.toByte)
    (h2 : vm.chunk.code[vm.ip + 1]? = some idx)
    (h3 : vm.chunk.constants[idx]? = some (Value.ValObjString name))
    (h4 : vm.stack = v :: rest)
    (h5 : globalsGet vm.globals name = some w) :
    step vm = StepResult.continueRun
      { vm with
        ip := vm.ip + 2,
        globals := globalsInsert vm.globals name v,
        stack := rest } ∧
    interpretObs "var a = 1; var a = 2; print a;" = (Outcome.success, ["2"], []) := by
  have hop : opcodeFromByte Opcodes.OpDefineGlobal.toByte =
      some Opcodes.OpDefineGlobal := by decide
  constructor
  · simp [step, h1, hop, execOp, readConstant, h2, h3, h4, vmRuntimeError]
  · rw [interpretObs_eq_of_compile "var a = 1; var a = 2; print a;"
        chunkGlobalRedefine tableGlobalProgs [] (by decide)]
    decide

/-- Witness for C10 at a concrete VM state. -/
theorem defineGlobal_redefinition_silent_witness :
    globalsGet vmDefineGlobalW.globals ⟨0, "a"⟩ = some (Value.ValNumber ⟨1, 1⟩) ∧
    step vmDefineGlobalW = StepResult.continueRun
      { vmDefineGlobalW with
        ip := 2,
        globals := globalsInsert vmDefineGlobalW.globals ⟨0, "a"⟩
          (Value.ValNumber ⟨2, 1⟩),
        stack := [] } :=
  ⟨by decide,
    (defineGlobal_redefinition_silent vmDefineGlobalW 0 ⟨0, "a"⟩
      (Value.ValNumber ⟨2, 1⟩) (Value.ValNumber ⟨1, 1⟩) [] (by decide) (by decide)
      (by decide) (by decide) (by decide)).1⟩

end Lox
